import Mathlib

/-!
Verification development for `sbg.py`, a GitLab group cloner.

The program discovers all projects under one or more GitLab groups
(recursively through subgroups, with pagination and cycle protection),
deduplicates them by project id, and clones or pulls each one into a
local directory tree mirroring its namespace.

The shallow embedding below translates each function of `sbg.py` into a
Lean definition.  Network and subprocess effects are passed in as
explicit function arguments (the API responses, the filesystem
predicate, the git invocation outcome), so every definition is a pure,
executable function of those inputs.
-/

namespace Sbg

/-- Group identifiers (JSON integer ids of groups/subgroups). -/
abbrev GroupId := Nat

/-- Exceptions a listing request can raise.  `requests.raise_for_status`
raises `requests.HTTPError` on a 4xx/5xx status; a connection failure
raises `requests.ConnectionError`, which is a sibling class of
`HTTPError` (both derive from `RequestException`), not a subclass. -/
inductive ReqError where
  | httpError (msg : String)
  | connectionError (msg : String)
deriving DecidableEq, Repr

/-- One project record as returned by the listing endpoint.  Fields are
the dictionary keys `main` and `gather_all_projects` read.
`namespace_full_path` models `proj.get("namespace", {}).get("full_path")`
(`none` when the key chain is missing). -/
structure Project where
  id : Nat
  path : String
  namespace_full_path : Option String := none
  path_with_namespace : String := ""
  http_url_to_repo : String := ""
  ssh_url_to_repo : String := ""
deriving DecidableEq, Repr

/-- One subgroup record; `gather_all_projects` reads only `sg["id"]`. -/
structure Subgroup where
  id : GroupId
deriving DecidableEq, Repr

/- ## Pagination: `GitLabCloner._get` (sbg.py lines 36-52)

The HTTP GET for one page is abstracted as `fetch : Nat → Except ReqError (List α)`
mapping a page number to the decoded JSON batch (or the exception raised
by `session.get` / `raise_for_status`).  `per_page` is always set
explicitly; every caller leaves it at the default 100.  The `while True`
loop is given explicit fuel; `none` means the fuel ran out before the
loop exited.  The second component of the result counts how many page
requests were issued. -/

/-- The body of `_get`'s pagination loop, starting at page `page`. -/
def getLoop (fetch : Nat → Except ReqError (List α)) (perPage : Nat) :
    Nat → Nat → Option (Except ReqError (List α × Nat))
  | 0, _ => none
  | fuel + 1, page =>
    match fetch page with
    | .error e => some (.error e)
    | .ok chunk =>
      if chunk.isEmpty then some (.ok ([], 1))
      else if chunk.length < perPage then some (.ok (chunk, 1))
      else
        match getLoop fetch perPage fuel (page + 1) with
        | none => none
        | some (.error e) => some (.error e)
        | some (.ok (rest, n)) => some (.ok (chunk ++ rest, n + 1))

/-- Model of `GitLabCloner._get`: pages are requested starting at 1 with
the fixed explicit page size 100. -/
def getAll (fetch : Nat → Except ReqError (List α)) (fuel : Nat) :
    Option (Except ReqError (List α × Nat)) :=
  getLoop fetch 100 fuel 1

/-- A server that answers page `n` (1-based) with the `n`-th element of
`pages`, and an empty batch beyond the end, never failing. -/
def fetchOfPages (pages : List (List α)) (n : Nat) : Except ReqError (List α) :=
  .ok (pages.getD (n - 1) [])

/- ## Traversal: `GitLabCloner.gather_all_projects` (sbg.py lines 61-79)

The API is the pair of listing calls `list_projects` / `list_subgroups`,
each of which either returns the full record list or raises. -/

/-- The two listing endpoints the traversal consumes. -/
structure GitLabAPI where
  projects : GroupId → Except ReqError (List Project)
  subgroups : GroupId → Except ReqError (List Subgroup)

/-- Result state of a finished traversal: the accumulated `projects`
list (the function's return value), the `seen` set (as the list of
group ids added to it, most recent first), and the `warns` list of
group ids for which a fetch failure was logged via `logger.warning`. -/
structure GatherState where
  projects : List Project
  seen : List GroupId
  warns : List GroupId
deriving DecidableEq, Repr

/-- The `while stack` loop of `gather_all_projects`.  The Lean list
`stack` has its head at the Python list's end (`stack.pop()` pops the
last element), so the `for sg in subs: stack.append(...)` step pushes
the subgroup ids in reverse.  Only `requests.HTTPError` is caught by
the `except` clause; a `connectionError` propagates out of the loop.
`none` means the fuel ran out before the stack emptied. -/
def gatherLoop (api : GitLabAPI) :
    Nat → List GroupId → List GroupId → List Project → List GroupId →
    Option (Except ReqError GatherState)
  | _, [], seen, acc, warns => some (.ok ⟨acc, seen, warns⟩)
  | 0, _ :: _, _, _, _ => none
  | fuel + 1, gid :: stack, seen, acc, warns =>
    if gid ∈ seen then
      gatherLoop api fuel stack seen acc warns
    else
      match api.projects gid with
      | .error (.httpError _) => gatherLoop api fuel stack (gid :: seen) acc (gid :: warns)
      | .error (.connectionError m) => some (.error (.connectionError m))
      | .ok projs =>
        match api.subgroups gid with
        | .error (.httpError _) => gatherLoop api fuel stack (gid :: seen) acc (gid :: warns)
        | .error (.connectionError m) => some (.error (.connectionError m))
        | .ok subs =>
          gatherLoop api fuel ((subs.map Subgroup.id).reverse ++ stack) (gid :: seen)
            (acc ++ projs) warns

/-- Model of `gather_all_projects(group_id)`: run the loop from the
stack `[group_id]`, empty seen set and empty accumulator. -/
def gather_all_projects (api : GitLabAPI) (fuel : Nat) (group_id : GroupId) :
    Option (Except ReqError GatherState) :=
  gatherLoop api fuel [group_id] [] [] []

/- ## Dedup: `main` phase 1 (sbg.py lines 103-108)

`all_projects[proj["id"]] = proj` on a Python dict: inserting an
existing key overwrites the value in place, a fresh key is appended.
The dict is modelled as an association list in insertion order. -/

/-- One `all_projects[proj["id"]] = proj` assignment. -/
def upsert (m : List (Nat × Project)) (p : Project) : List (Nat × Project) :=
  if m.any (fun kv => kv.1 = p.id) then
    m.map (fun kv => if kv.1 = p.id then (kv.1, p) else kv)
  else
    m ++ [(p.id, p)]

/-- Phase 1 of `main` applied to the concatenation of the per-root
traversal results: fold every observed project into the dict. -/
def dedupe (ps : List Project) : List (Nat × Project) :=
  ps.foldl upsert []

/- ## Destination paths: `main` phase 3 (sbg.py lines 115-124) -/

/-- Model of `os.path.join a b` for a non-empty `a` without a trailing
separator and a relative `b`, the only shape the program produces. -/
def pathJoin (a b : String) : String := a ++ "/" ++ b

/-- Model of Python `str.split(sep)` for a one-character separator:
split at every occurrence, preserving empty segments, and yield `[""]`
on the empty string. -/
def splitOnChar (c : Char) : List Char → List (List Char)
  | [] => [[]]
  | x :: xs =>
    match splitOnChar c xs with
    | [] => [[x]]
    | h :: t => if x = c then [] :: h :: t else (x :: h) :: t

/-- Namespace resolution of `main`: prefer `namespace.full_path` when
present and non-empty (`if not ns:`), otherwise derive it via
`"/".join(pwn.split("/")[:-1]) if "/" in pwn else ""`. -/
def resolveNamespace (p : Project) : String :=
  let ns := p.namespace_full_path.getD ""
  if ns = "" then
    let pwn := p.path_with_namespace
    if pwn.data.contains '/' then
      ⟨List.intercalate ['/'] ((splitOnChar '/' pwn.data).dropLast)⟩
    else ""
  else ns

/-- The local destination of a project: `dest_root/ns/slug`, or
`dest_root/slug` when the resolved namespace is empty. -/
def targetPath (dest_root : String) (p : Project) : String :=
  let ns := resolveNamespace p
  let parent := if ns = "" then dest_root else pathJoin dest_root ns
  pathJoin parent p.path

/-- The remote address handed to `clone_or_pull`, selected by the
run-wide `--use-ssh` flag. -/
def remoteUrl (use_ssh : Bool) (p : Project) : String :=
  if use_ssh then p.ssh_url_to_repo else p.http_url_to_repo

/- ## Synchronization: `GitLabCloner.clone_or_pull` (sbg.py lines 81-95)

`os.path.isdir` is abstracted as a predicate `isdir`, and
`subprocess.check_call` as `git : List String → Bool` returning whether
the invocation exited zero (`false` models the raised
`CalledProcessError`, which the function catches and logs). -/

/-- The git invocation chosen: `git -C target pull` or
`git clone url target`. -/
inductive GitOp where
  | pull (target_path : String)
  | clone (repo_url : String) (target_path : String)
deriving DecidableEq, Repr

/-- The argument vector passed to `subprocess.check_call`. -/
def gitArgs : GitOp → List String
  | .pull t => ["git", "-C", t, "pull"]
  | .clone u t => ["git", "clone", u, t]

/-- What one `clone_or_pull` call did: which git operation it issued and
whether it succeeded (`ok = false` records the caught-and-logged
failure; the exception never escapes). -/
structure SyncResult where
  op : GitOp
  ok : Bool
deriving DecidableEq, Repr

/-- Model of `clone_or_pull`: pull when the target exists and holds a
`.git` directory, clone otherwise; a non-zero exit is caught and
reported, never propagated. -/
def clone_or_pull (isdir : String → Bool) (git : List String → Bool)
    (repo_url target_path : String) : SyncResult :=
  if isdir target_path && isdir (pathJoin target_path ".git") then
    { op := .pull target_path, ok := git (gitArgs (.pull target_path)) }
  else
    { op := .clone repo_url target_path,
      ok := git (gitArgs (.clone repo_url target_path)) }

/-- Phase 3 of `main`: synchronize every unique project in turn. -/
def syncProjects (isdir : String → Bool) (git : List String → Bool)
    (use_ssh : Bool) (dest_root : String) (ps : List Project) : List SyncResult :=
  ps.map (fun p => clone_or_pull isdir git (remoteUrl use_ssh p) (targetPath dest_root p))

/- ## Base URL: `GitLabCloner.__init__` and the URL built by `_get`
(sbg.py lines 30-37) -/

/-- Model of Python `str.rstrip(c)`: drop every trailing occurrence of `c`. -/
def rstripChar (c : Char) (s : String) : String :=
  ⟨(s.data.reverse.dropWhile (fun x => x = c)).reverse⟩

/-- Model of Python `str.lstrip(c)`: drop every leading occurrence of `c`. -/
def lstripChar (c : Char) (s : String) : String :=
  ⟨s.data.dropWhile (fun x => x = c)⟩

/-- The stored base URL: `base_url.rstrip("/") + "/"`. -/
def normBaseUrl (base_url : String) : String :=
  rstripChar '/' base_url ++ "/"

/-- The URL `_get` requests: `urljoin(self.base_url, path.lstrip("/"))`.
Since the stored base ends in `/` and the joined path is relative,
`urljoin` concatenates them. -/
def requestUrl (base_url path : String) : String :=
  normBaseUrl base_url ++ lstripChar '/' path

/- ## Concrete scenarios used by the theorems below -/

/-- Three pages of sizes 100, 100, 37 carrying the records 0..236 in order. -/
def pages237 : List (List Nat) := [List.range' 0 100, List.range' 100 100, List.range' 200 37]

/-- A minimal project record living under group `g`. -/
def projOf (g : GroupId) : Project := { id := g, path := "p" }

/-- Hierarchy 1 → {2, 3}, 3 → {4}; listing the projects of group 3
fails with an HTTP 404 status error.  Group 3 is popped before its
sibling 2 (the stack pops the most recently appended id first). -/
def httpApi : GitLabAPI where
  projects := fun g =>
    if g = 1 then .ok [projOf 1]
    else if g = 2 then .ok [projOf 2]
    else if g = 3 then .error (.httpError "404 Client Error")
    else if g = 4 then .ok [projOf 4]
    else .ok []
  subgroups := fun g =>
    if g = 1 then .ok [⟨2⟩, ⟨3⟩]
    else if g = 3 then .ok [⟨4⟩]
    else .ok []

/-- Hierarchy 1 → {2, 3}; listing the projects of group 3 fails with a
connection failure while sibling group 2 is still on the worklist. -/
def connApi : GitLabAPI where
  projects := fun g =>
    if g = 1 then .ok [projOf 1]
    else if g = 3 then .error (.connectionError "connection refused")
    else .ok [projOf g]
  subgroups := fun g => if g = 1 then .ok [⟨2⟩, ⟨3⟩] else .ok []

/-- Hierarchy 1 → {2, 3}; listing the subgroups of group 3 fails with
an HTTP 500 status error after its project listing succeeded, while
sibling group 2 is still on the worklist. -/
def httpSubApi : GitLabAPI where
  projects := fun g =>
    if g = 1 then .ok [projOf 1]
    else if g = 2 then .ok [projOf 2]
    else if g = 3 then .ok [projOf 3]
    else .ok []
  subgroups := fun g =>
    if g = 1 then .ok [⟨2⟩, ⟨3⟩]
    else if g = 3 then .error (.httpError "500 Server Error")
    else .ok []

/-- A root group whose project listing succeeds but whose subgroup
listing fails with an HTTP status error. -/
def c9Api (pRoot : List Project) : GitLabAPI where
  projects := fun g => if g = 1 then .ok pRoot else .ok []
  subgroups := fun g => if g = 1 then .error (.httpError "500 Server Error") else .ok []

/-- The cyclic hierarchy of the spec: group 1 reports subgroup 2 and
group 2 reports subgroup 1. -/
def cycApi : GitLabAPI where
  projects := fun g => .ok [projOf g]
  subgroups := fun g => if g = 1 then .ok [⟨2⟩] else .ok [⟨1⟩]

/-- A group that lists itself as its own subgroup. -/
def selfLoopApi : GitLabAPI where
  projects := fun _ => .ok []
  subgroups := fun _ => .ok [⟨1⟩]

/-- Projects used in the dedup scenario: ids 42, 7 and again 42. -/
def demoA : Project := { id := 42, path := "first" }

/-- The project with the id not observed twice. -/
def demoB : Project := { id := 7, path := "other" }

/-- The second, later observation of id 42. -/
def demoC : Project := { id := 42, path := "second" }

/-- A project carrying an explicit namespace. -/
def demoNS : Project := { id := 9, path := "app", namespace_full_path := some "team/sub" }

/-- A project lacking a namespace, with a namespaced full path. -/
def demoFB : Project := { id := 8, path := "app", path_with_namespace := "team/sub/app" }

/-- One of three projects under group path `g` for the sync scenario. -/
def exProj (idn : Nat) (slug : String) : Project :=
  { id := idn, path := slug, namespace_full_path := some "g",
    http_url_to_repo := "http://x/g/" ++ slug ++ ".git" }

/-- A filesystem with no directories (fresh destination). -/
def noDirs : String → Bool := fun _ => false

/-- A git tool that exits non-zero exactly on the clone of the second
scenario project. -/
def failSecond : List String → Bool :=
  fun cmd => !(cmd == ["git", "clone", "http://x/g/b.git", "/d/g/b"])

/- ## Termination measure for the traversal -/

/-- Worklist growth caused by expanding group `g`: one for the pop plus
one per subgroup pushed when both fetches succeed. -/
def subCost (api : GitLabAPI) (g : GroupId) : Nat :=
  match api.projects g, api.subgroups g with
  | .ok _, .ok subs => subs.length + 1
  | _, _ => 1

/-- Loop variant: current stack length plus the total cost of the
not-yet-visited groups of the finite universe `U`. -/
def potential (api : GitLabAPI) (U : Finset GroupId) (seen stack : List GroupId) : Nat :=
  stack.length + ∑ g in U.filter (fun g => g ∉ seen), subCost api g

deriving instance DecidableEq for Except

end Sbg

namespace Sbg

/-! ## Supporting lemmas -/

lemma getLoop_pages {α : Type} (perPage : Nat) (hpp : 0 < perPage) :
    ∀ (ps : List (List α)) (fuel page : Nat) (fetch : Nat → Except ReqError (List α)),
      ps ≠ [] →
      (∀ p ∈ ps.dropLast, p.length = perPage) →
      (∀ h : ps ≠ [], (ps.getLast h).length < perPage) →
      ps.length ≤ fuel →
      (∀ i, fetch (page + i) = .ok (ps.getD i [])) →
      getLoop fetch perPage fuel page = some (.ok (ps.flatten, ps.length)) := by
  intro ps
  induction ps with
  | nil => intro fuel page fetch h; exact absurd rfl h
  | cons p ps ih =>
    intro fuel page fetch _ hfull hlast hfuel hfetch
    obtain ⟨f, rfl⟩ : ∃ f, fuel = f + 1 := by
      cases fuel with
      | zero => simp at hfuel
      | succ f => exact ⟨f, rfl⟩
    have hp : fetch page = .ok p := by simpa using hfetch 0
    by_cases hne : ps = []
    · subst hne
      have hlen : p.length < perPage := by simpa using hlast (by simp)
      by_cases hpe : p.isEmpty
      · have hp0 : p = [] := by simpa [List.isEmpty_iff] using hpe
        subst hp0
        simp [getLoop, hp]
      · simp [getLoop, hp, hpe, hlen]
    · have hplen : p.length = perPage := by
        apply hfull
        rw [List.dropLast_cons_of_ne_nil hne]
        simp
      have hrec : getLoop fetch perPage f (page + 1) = some (.ok (ps.flatten, ps.length)) := by
        apply ih f (page + 1) fetch hne
        · intro q hq
          apply hfull
          rw [List.dropLast_cons_of_ne_nil hne]
          exact List.mem_cons_of_mem _ hq
        · intro h
          have := hlast (by simp)
          rwa [List.getLast_cons hne] at this
        · simpa using hfuel
        · intro i
          have := hfetch (i + 1)
          rw [show page + (i + 1) = page + 1 + i by omega] at this
          simpa [List.getD_cons_succ] using this
      by_cases hpe : p.isEmpty
      · have hp0 : p = [] := by simpa [List.isEmpty_iff] using hpe
        subst hp0
        simp at hplen
        omega
      · have hnotlt : ¬ p.length < perPage := by omega
        simp [getLoop, hp, hpe, hnotlt, hrec]

lemma dropWhile_replicate_append (p : Char → Bool) (c : Char) (h : p c = true) :
    ∀ (n : Nat) (l : List Char),
      List.dropWhile p (List.replicate n c ++ l) = List.dropWhile p l := by
  intro n
  induction n with
  | zero => intro l; simp
  | succ k ih => intro l; simp [List.replicate_succ, List.dropWhile_cons, h, ih]

lemma takeWhile_dropWhile_eq_nil (p : Char → Bool) :
    ∀ l : List Char, List.takeWhile p (List.dropWhile p l) = [] := by
  intro l
  induction l with
  | nil => rfl
  | cons a l ih =>
    by_cases hp : p a = true
    · simp [List.dropWhile_cons, hp, ih]
    · simp only [Bool.not_eq_true] at hp
      simp [List.dropWhile_cons, List.takeWhile_cons, hp]

lemma rstripChar_append_replicate (c : Char) (s : String) (n : Nat) :
    rstripChar c (s ++ ⟨List.replicate n c⟩) = rstripChar c s := by
  simp only [rstripChar, String.data_append, List.reverse_append]
  congr 1
  rw [List.reverse_replicate]
  rw [dropWhile_replicate_append _ c (by simp) n]

end Sbg

namespace Sbg
lemma subCost_pos (api : GitLabAPI) (g : GroupId) : 1 ≤ subCost api g := by
  unfold subCost
  rcases api.projects g with e | ps <;> rcases api.subgroups g with e' | ss <;> simp


lemma filter_insert_seen (U : Finset GroupId) (seen : List GroupId) (gid : GroupId)
    (hU : gid ∈ U) (hs : gid ∉ seen) :
    U.filter (fun g => g ∉ seen) = insert gid (U.filter (fun g => g ∉ gid :: seen)) := by
  ext x
  simp only [Finset.mem_filter, Finset.mem_insert, List.mem_cons, not_or]
  constructor
  · rintro ⟨hxU, hxs⟩
    by_cases hx : x = gid
    · exact Or.inl hx
    · exact Or.inr ⟨hxU, hx, hxs⟩
  · rintro (rfl | ⟨hxU, _, hxs⟩)
    · exact ⟨hU, hs⟩
    · exact ⟨hxU, hxs⟩

lemma sum_seen_insert (api : GitLabAPI) (U : Finset GroupId) (seen : List GroupId)
    (gid : GroupId) (hU : gid ∈ U) (hs : gid ∉ seen) :
    ∑ g in U.filter (fun g => g ∉ seen), subCost api g =
      subCost api gid + ∑ g in U.filter (fun g => g ∉ gid :: seen), subCost api g := by
  rw [filter_insert_seen U seen gid hU hs, Finset.sum_insert]
  simp

lemma gatherLoop_isSome (api : GitLabAPI) (U : Finset GroupId)
    (hcl : ∀ g subs, api.subgroups g = .ok subs → ∀ s ∈ subs, s.id ∈ U) :
    ∀ (fuel : Nat) (stack seen : List GroupId) (acc : List Project) (warns : List GroupId),
      (∀ g ∈ stack, g ∈ U) →
      potential api U seen stack ≤ fuel →
      (gatherLoop api fuel stack seen acc warns).isSome := by
  intro fuel
  induction fuel with
  | zero =>
    intro stack seen acc warns hst hpot
    cases stack with
    | nil => simp [gatherLoop]
    | cons g rest =>
      exfalso
      have h1 : (g :: rest).length ≤ potential api U seen (g :: rest) := by
        simp [potential]
      simp at h1
      omega
  | succ f ih =>
    intro stack seen acc warns hst hpot
    cases stack with
    | nil => simp [gatherLoop]
    | cons gid rest =>
      have hgidU : gid ∈ U := hst gid (List.mem_cons_self gid rest)
      have hrestU : ∀ g ∈ rest, g ∈ U := fun g hg => hst g (List.mem_cons_of_mem _ hg)
      have hlen : potential api U seen (gid :: rest) =
          rest.length + 1 + ∑ g in U.filter (fun g => g ∉ seen), subCost api g := by
        simp [potential]
      by_cases hseen : gid ∈ seen
      · have hstep : gatherLoop api (f + 1) (gid :: rest) seen acc warns =
            gatherLoop api f rest seen acc warns := by
          simp [gatherLoop, hseen]
        rw [hstep]
        apply ih rest seen acc warns hrestU
        have : potential api U seen rest =
            rest.length + ∑ g in U.filter (fun g => g ∉ seen), subCost api g := rfl
        omega
      · have hsum := sum_seen_insert api U seen gid hgidU hseen
        have hpos := subCost_pos api gid
        have hpot' : potential api U (gid :: seen) rest =
            rest.length + ∑ g in U.filter (fun g => g ∉ gid :: seen), subCost api g := rfl
        rcases hp : api.projects gid with e | projs
        · rcases e with m | m
          · have hstep : gatherLoop api (f + 1) (gid :: rest) seen acc warns =
                gatherLoop api f rest (gid :: seen) acc (gid :: warns) := by
              simp [gatherLoop, hseen, hp]
            rw [hstep]
            apply ih rest (gid :: seen) acc (gid :: warns) hrestU
            omega
          · simp [gatherLoop, hseen, hp]
        · rcases hq : api.subgroups gid with e | subs
          · rcases e with m | m
            · have hstep : gatherLoop api (f + 1) (gid :: rest) seen acc warns =
                  gatherLoop api f rest (gid :: seen) acc (gid :: warns) := by
                simp [gatherLoop, hseen, hp, hq]
              rw [hstep]
              apply ih rest (gid :: seen) acc (gid :: warns) hrestU
              omega
            · simp [gatherLoop, hseen, hp, hq]
          · have hsc : subCost api gid = subs.length + 1 := by
              simp [subCost, hp, hq]
            have hstep : gatherLoop api (f + 1) (gid :: rest) seen acc warns =
                gatherLoop api f ((subs.map Subgroup.id).reverse ++ rest) (gid :: seen)
                  (acc ++ projs) warns := by
              simp [gatherLoop, hseen, hp, hq]
            rw [hstep]
            apply ih ((subs.map Subgroup.id).reverse ++ rest) (gid :: seen) (acc ++ projs) warns
            · intro g hg
              rcases List.mem_append.mp hg with hg | hg
              · rw [List.mem_reverse] at hg
                obtain ⟨s, hsm, rfl⟩ := List.mem_map.mp hg
                exact hcl gid subs hq s hsm
              · exact hrestU g hg
            · have : potential api U (gid :: seen) ((subs.map Subgroup.id).reverse ++ rest) =
                  subs.length + rest.length +
                    ∑ g in U.filter (fun g => g ∉ gid :: seen), subCost api g := by
                simp [potential]
              omega

end Sbg

namespace Sbg

lemma gatherLoop_ok_spec (api : GitLabAPI) :
    ∀ (fuel : Nat) (stack seen : List GroupId) (acc : List Project) (warns : List GroupId)
      (st : GatherState),
      gatherLoop api fuel stack seen acc warns = some (.ok st) →
      seen.Nodup →
      st.seen.Nodup ∧ (∀ g ∈ seen, g ∈ st.seen) ∧ (∀ g ∈ stack, g ∈ st.seen) := by
  intro fuel
  induction fuel with
  | zero =>
    intro stack seen acc warns st heq hnd
    cases stack with
    | nil =>
      simp [gatherLoop] at heq
      subst heq
      refine ⟨hnd, fun g hg => hg, ?_⟩
      intro g hg
      simp at hg
    | cons g rest => simp [gatherLoop] at heq
  | succ f ih =>
    intro stack seen acc warns st heq hnd
    cases stack with
    | nil =>
      simp [gatherLoop] at heq
      subst heq
      refine ⟨hnd, fun g hg => hg, ?_⟩
      intro g hg
      simp at hg
    | cons gid rest =>
      by_cases hseen : gid ∈ seen
      · rw [show gatherLoop api (f + 1) (gid :: rest) seen acc warns =
            gatherLoop api f rest seen acc warns by simp [gatherLoop, hseen]] at heq
        obtain ⟨h1, h2, h3⟩ := ih rest seen acc warns st heq hnd
        refine ⟨h1, h2, ?_⟩
        intro g hg
        rcases List.mem_cons.mp hg with rfl | hg
        · exact h2 g hseen
        · exact h3 g hg
      · have hnd' : (gid :: seen).Nodup := List.nodup_cons.mpr ⟨hseen, hnd⟩
        rcases hp : api.projects gid with e | projs
        · rcases e with m | m
          · rw [show gatherLoop api (f + 1) (gid :: rest) seen acc warns =
                gatherLoop api f rest (gid :: seen) acc (gid :: warns) by
                  simp [gatherLoop, hseen, hp]] at heq
            obtain ⟨h1, h2, h3⟩ := ih rest (gid :: seen) acc (gid :: warns) st heq hnd'
            refine ⟨h1, fun g hg => h2 g (List.mem_cons_of_mem _ hg), ?_⟩
            intro g hg
            rcases List.mem_cons.mp hg with rfl | hg
            · exact h2 g (List.mem_cons_self _ _)
            · exact h3 g hg
          · rw [show gatherLoop api (f + 1) (gid :: rest) seen acc warns =
                some (.error (.connectionError m)) by simp [gatherLoop, hseen, hp]] at heq
            simp at heq
        · rcases hq : api.subgroups gid with e | subs
          · rcases e with m | m
            · rw [show gatherLoop api (f + 1) (gid :: rest) seen acc warns =
                  gatherLoop api f rest (gid :: seen) acc (gid :: warns) by
                    simp [gatherLoop, hseen, hp, hq]] at heq
              obtain ⟨h1, h2, h3⟩ := ih rest (gid :: seen) acc (gid :: warns) st heq hnd'
              refine ⟨h1, fun g hg => h2 g (List.mem_cons_of_mem _ hg), ?_⟩
              intro g hg
              rcases List.mem_cons.mp hg with rfl | hg
              · exact h2 g (List.mem_cons_self _ _)
              · exact h3 g hg
            · rw [show gatherLoop api (f + 1) (gid :: rest) seen acc warns =
                  some (.error (.connectionError m)) by simp [gatherLoop, hseen, hp, hq]] at heq
              simp at heq
          · rw [show gatherLoop api (f + 1) (gid :: rest) seen acc warns =
                gatherLoop api f ((subs.map Subgroup.id).reverse ++ rest) (gid :: seen)
                  (acc ++ projs) warns by simp [gatherLoop, hseen, hp, hq]] at heq
            obtain ⟨h1, h2, h3⟩ :=
              ih ((subs.map Subgroup.id).reverse ++ rest) (gid :: seen) (acc ++ projs) warns
                st heq hnd'
            refine ⟨h1, fun g hg => h2 g (List.mem_cons_of_mem _ hg), ?_⟩
            intro g hg
            rcases List.mem_cons.mp hg with rfl | hg
            · exact h2 g (List.mem_cons_self _ _)
            · exact h3 g (List.mem_append_right _ hg)
end Sbg

namespace Sbg

lemma upsert_any_true (m : List (Nat × Project)) (p : Project)
    (h : p.id ∈ m.map Prod.fst) : (m.any fun kv => kv.1 = p.id) = true := by
  rw [List.any_eq_true]
  obtain ⟨kv, hkv, hfst⟩ := List.mem_map.mp h
  exact ⟨kv, hkv, by simp [hfst]⟩

lemma upsert_any_false (m : List (Nat × Project)) (p : Project)
    (h : p.id ∉ m.map Prod.fst) : (m.any fun kv => kv.1 = p.id) = false := by
  rw [List.any_eq_false]
  intro kv hkv
  simp only [decide_eq_true_eq]
  intro hfst
  exact h (List.mem_map.mpr ⟨kv, hkv, hfst⟩)

lemma keys_upsert (m : List (Nat × Project)) (p : Project) :
    (upsert m p).map Prod.fst =
      if p.id ∈ m.map Prod.fst then m.map Prod.fst else m.map Prod.fst ++ [p.id] := by
  by_cases h : p.id ∈ m.map Prod.fst
  · rw [if_pos h]
    unfold upsert
    rw [upsert_any_true m p h, if_pos rfl, List.map_map]
    apply List.map_congr_left
    intro kv _
    by_cases hkv : kv.1 = p.id <;> simp [hkv]
  · rw [if_neg h]
    unfold upsert
    rw [upsert_any_false m p h]
    simp

lemma mem_keys_upsert (m : List (Nat × Project)) (p : Project) (a : Nat) :
    a ∈ (upsert m p).map Prod.fst ↔ a ∈ m.map Prod.fst ∨ a = p.id := by
  rw [keys_upsert]
  by_cases h : p.id ∈ m.map Prod.fst
  · rw [if_pos h]
    constructor
    · exact Or.inl
    · rintro (ha | rfl)
      · exact ha
      · exact h
  · rw [if_neg h]
    simp

lemma nodup_keys_upsert (m : List (Nat × Project)) (p : Project)
    (hnd : (m.map Prod.fst).Nodup) : ((upsert m p).map Prod.fst).Nodup := by
  rw [keys_upsert]
  by_cases h : p.id ∈ m.map Prod.fst
  · rwa [if_pos h]
  · rw [if_neg h]
    simp [List.nodup_append, hnd, h]

lemma map_replace_of_not_mem (m : List (Nat × Project)) (p : Project)
    (h : p.id ∉ m.map Prod.fst) :
    m.map (fun kv => if kv.1 = p.id then (kv.1, p) else kv) = m := by
  induction m with
  | nil => rfl
  | cons kv m ih =>
    simp only [List.map_cons, List.mem_cons] at h
    push_neg at h
    rw [List.map_cons, if_neg (fun he => h.1 he.symm), ih h.2]


lemma upsert_cons_ne (kv : Nat × Project) (m : List (Nat × Project)) (p : Project)
    (h : kv.1 ≠ p.id) : upsert (kv :: m) p = kv :: upsert m p := by
  unfold upsert
  have hc : (decide (kv.1 = p.id)) = false := by simp [h]
  rcases ha : m.any (fun kv => kv.1 = p.id) with _ | _
  · simp [List.any_cons, hc, ha, h]
  · simp [List.any_cons, hc, ha, h]

lemma find?_upsert (p : Project) (a : Nat) :
    ∀ (m : List (Nat × Project)), (m.map Prod.fst).Nodup →
      (upsert m p).find? (fun kv => kv.1 == a) =
        if a = p.id then some (a, p) else m.find? (fun kv => kv.1 == a) := by
  intro m
  induction m with
  | nil =>
    intro _
    by_cases ha : a = p.id
    · subst ha
      simp [upsert, List.find?_cons]
    · have h1 : (p.id == a) = false := by simp; exact fun he => ha he.symm
      simp [upsert, List.find?_cons, ha, h1]
  | cons kv m ih =>
    intro hnd
    rw [List.map_cons, List.nodup_cons] at hnd
    obtain ⟨hkv, hnd'⟩ := hnd
    by_cases hkvp : kv.1 = p.id
    · have hany : ((kv :: m).any fun kv => kv.1 = p.id) = true := by
        simp [List.any_cons, hkvp]
      unfold upsert
      rw [hany, if_pos rfl, List.map_cons, if_pos hkvp]
      rw [map_replace_of_not_mem m p (hkvp ▸ hkv)]
      by_cases ha : a = kv.1
      · subst ha
        rw [hkvp]
        simp [List.find?_cons]
      · have hap : a ≠ p.id := fun he => ha (he.trans hkvp.symm)
        rw [if_neg hap]
        simp only [List.find?_cons]
        have h1 : (kv.1 == a) = false := by simp; exact fun he => ha he.symm
        rw [h1]
    · rw [upsert_cons_ne kv m p hkvp]
      by_cases ha : a = kv.1
      · subst ha
        have hap : kv.1 ≠ p.id := hkvp
        rw [if_neg hap]
        simp [List.find?_cons]
      · have h1 : (kv.1 == a) = false := by simp; exact fun he => ha he.symm
        simp only [List.find?_cons, h1]
        rw [ih hnd']


lemma mem_keys_foldl (ps : List Project) :
    ∀ (m : List (Nat × Project)) (a : Nat),
      a ∈ (ps.foldl upsert m).map Prod.fst ↔
        a ∈ m.map Prod.fst ∨ a ∈ ps.map Project.id := by
  induction ps with
  | nil => intro m a; simp
  | cons p ps ih =>
    intro m a
    rw [List.foldl_cons, ih (upsert m p) a, mem_keys_upsert]
    simp only [List.map_cons, List.mem_cons]
    constructor
    · rintro ((h | h) | h)
      · exact Or.inl h
      · exact Or.inr (Or.inl h)
      · exact Or.inr (Or.inr h)
    · rintro (h | h | h)
      · exact Or.inl (Or.inl h)
      · exact Or.inl (Or.inr h)
      · exact Or.inr h

lemma nodup_keys_foldl (ps : List Project) :
    ∀ m : List (Nat × Project), (m.map Prod.fst).Nodup →
      ((ps.foldl upsert m).map Prod.fst).Nodup := by
  induction ps with
  | nil => intro m h; exact h
  | cons p ps ih =>
    intro m h
    rw [List.foldl_cons]
    exact ih (upsert m p) (nodup_keys_upsert m p h)

lemma find?_foldl (a : Nat) :
    ∀ (ps : List Project) (m : List (Nat × Project)), (m.map Prod.fst).Nodup →
      (ps.foldl upsert m).find? (fun kv => kv.1 == a) =
        ((ps.reverse.find? (fun q => q.id == a)).map (fun q => (a, q))).or
          (m.find? (fun kv => kv.1 == a)) := by
  intro ps
  induction ps with
  | nil => intro m _; simp
  | cons p ps ih =>
    intro m hnd
    rw [List.foldl_cons, ih (upsert m p) (nodup_keys_upsert m p hnd)]
    rw [List.reverse_cons, List.find?_append]
    rcases hfind : ps.reverse.find? (fun q => q.id == a) with _ | q
    · simp only [hfind, Option.map_none, Option.none_or]
      rw [find?_upsert p a m hnd]
      by_cases hap : a = p.id
      · subst hap
        simp [List.find?_cons]
      · have h1 : (p.id == a) = false := by simp; exact fun he => hap he.symm
        simp [List.find?_cons, h1, hap]
    · simp [hfind]

end Sbg

namespace Sbg

/-! ## Claims -/

/-- C1.  Per-project failure isolation: `main` phase 3 produces exactly
one sync result per unique project, the result for the j-th project is
a function of that project alone (a git failure on another project,
recorded as `ok = false`, cannot affect it), and in the concrete
3-project run where cloning the second project exits non-zero, the
first and third are both cloned successfully while the run still
processes all three. -/
theorem C1_per_project_failure_isolation :
    (∀ (isdir : String → Bool) (git : List String → Bool) (use_ssh : Bool)
       (dest_root : String) (ps : List Project),
      (syncProjects isdir git use_ssh dest_root ps).length = ps.length)
    ∧ (∀ (isdir : String → Bool) (git : List String → Bool) (use_ssh : Bool)
       (dest_root : String) (ps : List Project) (j : Nat),
      (syncProjects isdir git use_ssh dest_root ps)[j]? =
        (ps[j]?).map (fun p =>
          clone_or_pull isdir git (remoteUrl use_ssh p) (targetPath dest_root p)))
    ∧ syncProjects noDirs failSecond false "/d" [exProj 1 "a", exProj 2 "b", exProj 3 "c"] =
        [{ op := .clone "http://x/g/a.git" "/d/g/a", ok := true },
         { op := .clone "http://x/g/b.git" "/d/g/b", ok := false },
         { op := .clone "http://x/g/c.git" "/d/g/c", ok := true }] := by
  refine ⟨?_, ?_, ?_⟩
  · intro isdir git use_ssh dest_root ps
    simp [syncProjects]
  · intro isdir git use_ssh dest_root ps j
    simp [syncProjects]
  · rfl

/-- C2, counterexample.  A connection failure is not a
`requests.HTTPError`, so the `except` clause of `gather_all_projects`
does not catch it: with sibling group 2 still on the worklist, the
connection failure while fetching group 3 propagates out of the
traversal — the run aborts instead of continuing, and group 2's
projects are never returned. -/
theorem C2_connection_failure_aborts :
    gather_all_projects connApi 10 1 = some (.error (.connectionError "connection refused"))
    ∧ (gather_all_projects connApi 10 1).map
        (fun r => match r with | .ok _ => true | .error _ => false) = some false := ⟨rfl, rfl⟩

/-- C2, amended.  Only an HTTP-status failure (`requests.HTTPError`,
4xx/5xx) is recovered at the traversal level, whether it is the
projects fetch or the subgroups fetch that fails: the failed group's
children are not explored, the failure is recorded, and traversal
continues with the remaining worklist.  Concretely, in the hierarchy
1 → {2, 3} with 3 → {4}, a 404 on group 3's project listing leaves
sibling 2's project in the result, records the warning for 3, and
never visits 4; and in the hierarchy 1 → {2, 3}, a 500 on group 3's
subgroup listing likewise skips 3's subtree while sibling 2's project
is still returned. -/
theorem C2_http_error_isolation :
    (∀ (api : GitLabAPI) (fuel gid : Nat) (stack seen : List GroupId)
       (acc : List Project) (warns : List GroupId) (m : String),
      gid ∉ seen →
      api.projects gid = .error (.httpError m) →
      gatherLoop api (fuel + 1) (gid :: stack) seen acc warns =
        gatherLoop api fuel stack (gid :: seen) acc (gid :: warns))
    ∧ (∀ (api : GitLabAPI) (fuel gid : Nat) (stack seen : List GroupId)
       (acc : List Project) (warns : List GroupId) (projs : List Project) (m : String),
      gid ∉ seen →
      api.projects gid = .ok projs →
      api.subgroups gid = .error (.httpError m) →
      gatherLoop api (fuel + 1) (gid :: stack) seen acc warns =
        gatherLoop api fuel stack (gid :: seen) acc (gid :: warns))
    ∧ gather_all_projects httpApi 10 1 =
        some (.ok ⟨[projOf 1, projOf 2], [2, 3, 1], [3]⟩)
    ∧ gather_all_projects httpSubApi 10 1 =
        some (.ok ⟨[projOf 1, projOf 2], [2, 3, 1], [3]⟩) := by
  refine ⟨?_, ?_, ?_, ?_⟩
  · intro api fuel gid stack seen acc warns m h1 h2
    simp [gatherLoop, h1, h2]
  · intro api fuel gid stack seen acc warns projs m h1 h2 h3
    simp [gatherLoop, h1, h2, h3]
  · rfl
  · rfl

/-- C2, witness for the amended step lemmas: expanding group 3 of
`httpApi` (whose project listing 404s) and group 3 of `httpSubApi`
(whose subgroup listing 500s after its project listing succeeded)
both skip the subtree and continue with the remaining worklist. -/
theorem C2_http_error_isolation_witness :
    (gatherLoop httpApi (5 + 1) (3 :: [2]) [1] [projOf 1] [] =
      gatherLoop httpApi 5 [2] (3 :: [1]) [projOf 1] (3 :: []))
    ∧ (gatherLoop httpSubApi (5 + 1) (3 :: [2]) [1] [projOf 1] [] =
      gatherLoop httpSubApi 5 [2] (3 :: [1]) [projOf 1] (3 :: [])) :=
  ⟨C2_http_error_isolation.1 httpApi 5 3 [2] [1] [projOf 1] [] "404 Client Error"
      (by decide) rfl,
    C2_http_error_isolation.2.1 httpSubApi 5 3 [2] [1] [projOf 1] [] [projOf 3]
      "500 Server Error" (by decide) rfl rfl⟩

end Sbg

namespace Sbg

set_option maxRecDepth 8000 in
/-- C3.  Pagination completeness: for any non-empty page sequence in
which every page but the last is exactly the requested size 100 and the
last is strictly shorter, `_get` returns the concatenation of all pages
in order and issues exactly one request per page — a full page is never
treated as final.  In particular pages of sizes [100, 100, 37] yield
exactly the 237 records 0..236 in order with 3 page requests. -/
theorem C3_pagination_completeness :
    (∀ {α : Type} (pages : List (List α)) (fuel : Nat),
      pages ≠ [] →
      (∀ p ∈ pages.dropLast, p.length = 100) →
      (∀ h : pages ≠ [], (pages.getLast h).length < 100) →
      pages.length ≤ fuel →
      getAll (fetchOfPages pages) fuel = some (.ok (pages.flatten, pages.length)))
    ∧ getAll (fetchOfPages pages237) 5 = some (.ok (List.range' 0 237, 3)) := by
  constructor
  · intro α pages fuel h1 h2 h3 h4
    apply getLoop_pages 100 (by norm_num) pages fuel 1 _ h1 h2 h3 h4
    intro i
    simp [fetchOfPages]
  · rfl

/-- C3, witness: a single short page of two records is returned whole
with one request. -/
theorem C3_pagination_completeness_witness :
    getAll (fetchOfPages [[5, 6]]) 1 = some (.ok ([5, 6], 1)) := by
  have h := C3_pagination_completeness.1 [[5, 6]] 1 (by decide) (by decide)
    (by intro h; simp [List.getLast_singleton]) (by decide)
  simpa using h

/-- C4.  Cycle safety and termination: whenever every reported subgroup
id stays inside a finite universe `U` containing the root, the
traversal terminates (the loop exits within `potential` iterations —
the fuel is not exhausted), and on normal completion the visited list
contains no duplicates (each group is expanded at most once, a group
already in the visited set being skipped) and contains the root.  On
the spec's concrete two-group cycle 1 ⇄ 2, the traversal visits each
group exactly once and returns both projects. -/
theorem C4_cycle_safety_termination :
    (∀ (api : GitLabAPI) (U : Finset GroupId) (root : GroupId),
      root ∈ U →
      (∀ g subs, api.subgroups g = .ok subs → ∀ s ∈ subs, s.id ∈ U) →
      ∃ (fuel : Nat) (r : Except ReqError GatherState),
        gather_all_projects api fuel root = some r ∧
        ∀ st, r = .ok st → st.seen.Nodup ∧ root ∈ st.seen)
    ∧ gather_all_projects cycApi 10 1 = some (.ok ⟨[projOf 1, projOf 2], [2, 1], []⟩) := by
  constructor
  · intro api U root hroot hcl
    refine ⟨potential api U [] [root], ?_⟩
    have hs := gatherLoop_isSome api U hcl (potential api U [] [root]) [root] [] [] []
      (by intro g hg; simp at hg; subst hg; exact hroot) le_rfl
    obtain ⟨r, hr⟩ := Option.isSome_iff_exists.mp hs
    refine ⟨r, hr, ?_⟩
    rintro st rfl
    obtain ⟨h1, _, h3⟩ := gatherLoop_ok_spec api (potential api U [] [root]) [root] [] [] []
      st hr List.nodup_nil
    exact ⟨h1, h3 root (List.mem_cons_self root [])⟩
  · rfl

/-- C4, witness: the self-loop hierarchy (group 1 its own subgroup)
inside the universe `{1}` terminates with a duplicate-free visited
list. -/
theorem C4_cycle_safety_termination_witness :
    ∃ (fuel : Nat) (r : Except ReqError GatherState),
      gather_all_projects selfLoopApi fuel 1 = some r ∧
      ∀ st, r = .ok st → st.seen.Nodup ∧ 1 ∈ st.seen := by
  apply C4_cycle_safety_termination.1 selfLoopApi {1} 1 (by decide)
  intro g subs h s hs
  have hsubs : subs = [⟨1⟩] := by
    have h' : Except.ok (ε := ReqError) [(⟨1⟩ : Subgroup)] = Except.ok subs := h
    exact (Except.ok.injEq _ _ |>.mp h').symm
  subst hsubs
  simp at hs
  subst hs
  decide

end Sbg

namespace Sbg

/-- C5.  Deduplication: merging the concatenated traversal results into
the id-keyed dict gives one entry per distinct id (keys are
duplicate-free and cover exactly the observed ids), and the entry kept
for an id is the last-observed record with that id; concretely, when
two roots' results both contain id 42, the merged dict has exactly one
entry for 42, holding the later record. -/
theorem C5_dedup_by_id_last_wins :
    (∀ ps : List Project, ((dedupe ps).map Prod.fst).Nodup)
    ∧ (∀ (ps : List Project) (a : Nat),
        a ∈ (dedupe ps).map Prod.fst ↔ a ∈ ps.map Project.id)
    ∧ (∀ (ps : List Project) (a : Nat),
        (dedupe ps).find? (fun kv => kv.1 == a) =
          (ps.reverse.find? (fun q => q.id == a)).map (fun q => (a, q)))
    ∧ (dedupe ([demoA, demoB] ++ [demoC])).countP (fun kv => kv.1 == 42) = 1
    ∧ (dedupe ([demoA, demoB] ++ [demoC])).find? (fun kv => kv.1 == 42) =
        some (42, demoC) := by
  refine ⟨?_, ?_, ?_, ?_, ?_⟩
  · intro ps
    exact nodup_keys_foldl ps [] (by simp)
  · intro ps a
    rw [dedupe, mem_keys_foldl ps [] a]
    simp
  · intro ps a
    rw [dedupe, find?_foldl a ps [] (by simp)]
    simp
  · rfl
  · rfl

/-- C6.  Clone-or-update decision: with the `.git` marker present under
an existing target the call issues exactly a pull scoped to that
directory, otherwise exactly a clone of the remote URL into the target;
hence a first run against a fresh destination issues a clone and a
second run, once the marker exists, issues a pull — never two clones. -/
theorem C6_clone_or_update_decision :
    (∀ (isdir : String → Bool) (git : List String → Bool) (url t : String),
      isdir t = true → isdir (pathJoin t ".git") = true →
      clone_or_pull isdir git url t =
        { op := .pull t, ok := git ["git", "-C", t, "pull"] })
    ∧ (∀ (isdir : String → Bool) (git : List String → Bool) (url t : String),
      isdir t = false ∨ isdir (pathJoin t ".git") = false →
      clone_or_pull isdir git url t =
        { op := .clone url t, ok := git ["git", "clone", url, t] })
    ∧ (∀ (isdir₁ isdir₂ : String → Bool) (git₁ git₂ : List String → Bool) (url t : String),
      isdir₁ t = false →
      isdir₂ t = true → isdir₂ (pathJoin t ".git") = true →
      (clone_or_pull isdir₁ git₁ url t).op = .clone url t ∧
      (clone_or_pull isdir₂ git₂ url t).op = .pull t)
    ∧ (∀ p : Project, remoteUrl true p = p.ssh_url_to_repo ∧
        remoteUrl false p = p.http_url_to_repo) := by
  refine ⟨?_, ?_, ?_, ?_⟩
  · intro isdir git url t h1 h2
    simp [clone_or_pull, h1, h2, gitArgs]
  · intro isdir git url t h
    rcases h with h | h <;> simp [clone_or_pull, h, gitArgs]
  · intro isdir₁ isdir₂ git₁ git₂ url t h1 h2 h3
    constructor
    · simp [clone_or_pull, h1]
    · simp [clone_or_pull, h2, h3]
  · intro p
    exact ⟨rfl, rfl⟩

/-- C6, witness: against an empty filesystem the run clones, and
against a filesystem where the target and its marker exist it pulls. -/
theorem C6_clone_or_update_decision_witness :
    (clone_or_pull noDirs (fun _ => true) "u" "/t").op = .clone "u" "/t" ∧
    (clone_or_pull (fun _ => true) (fun _ => true) "u" "/t").op = .pull "/t" :=
  C6_clone_or_update_decision.2.2.1 noDirs (fun _ => true) (fun _ => true) (fun _ => true)
    "u" "/t" rfl rfl rfl

/-- C7.  Destination determinism: a project with namespace `team/sub`
and slug `app` always maps to `destRoot/team/sub/app`, and the computed
destination depends only on the project's own namespace, full path and
slug fields (hence not on which root discovered it). -/
theorem C7_destination_determinism :
    (∀ (dest_root : String) (p : Project),
      p.namespace_full_path = some "team/sub" → p.path = "app" →
      targetPath dest_root p = dest_root ++ "/team/sub/app")
    ∧ (∀ (dest_root : String) (p q : Project),
      p.namespace_full_path = q.namespace_full_path →
      p.path_with_namespace = q.path_with_namespace → p.path = q.path →
      targetPath dest_root p = targetPath dest_root q) := by
  constructor
  · intro dest_root p hns hpath
    simp only [targetPath, resolveNamespace, pathJoin, hns, hpath, Option.getD_some]
    norm_num
    apply String.ext
    simp [String.data_append]
  · intro dest_root p q h1 h2 h3
    simp only [targetPath, resolveNamespace, pathJoin, h1, h2, h3]

/-- C7, witness: the concrete project with namespace `team/sub` and
slug `app` lands in `/backup/team/sub/app`. -/
theorem C7_destination_determinism_witness :
    targetPath "/backup" demoNS = "/backup" ++ "/team/sub/app" :=
  C7_destination_determinism.1 "/backup" demoNS rfl rfl

/-- C8.  Fallback namespace derivation: a project without a namespace
record but with full path `team/sub/app` derives namespace `team/sub`;
when the full path has no separator (or is empty) the namespace is
empty and the project targets the destination root directly. -/
theorem C8_fallback_namespace_derivation :
    (∀ p : Project, p.namespace_full_path = none →
      p.path_with_namespace = "team/sub/app" → resolveNamespace p = "team/sub")
    ∧ (∀ (dest_root : String) (p : Project), p.namespace_full_path = none →
      p.path_with_namespace.data.contains '/' = false →
      resolveNamespace p = "" ∧ targetPath dest_root p = pathJoin dest_root p.path) := by
  constructor
  · intro p h1 h2
    simp only [resolveNamespace, h1, h2, Option.getD_none]
    rfl
  · intro dest_root p h1 h2
    have h2' : ¬ ('/' ∈ p.path_with_namespace.data) := by simpa using h2
    have hns : resolveNamespace p = "" := by
      simp [resolveNamespace, h1, h2']
    exact ⟨hns, by simp [targetPath, hns]⟩

/-- C8, witness: the concrete project with full path `team/sub/app`
derives namespace `team/sub`. -/
theorem C8_fallback_namespace_derivation_witness :
    resolveNamespace demoFB = "team/sub" :=
  C8_fallback_namespace_derivation.1 demoFB rfl rfl

/-- C9.  Per-group all-or-nothing accumulation: when a group's project
listing succeeds but its subgroup listing fails with an HTTP status
error, the loop moves on without touching the accumulator, so the
already-fetched projects are discarded; concretely a root whose
subgroup listing 500s contributes no projects at all to the result,
whatever its project listing returned. -/
theorem C9_group_all_or_nothing :
    (∀ (api : GitLabAPI) (fuel gid : Nat) (stack seen : List GroupId)
       (acc : List Project) (warns : List GroupId) (projs : List Project) (m : String),
      gid ∉ seen →
      api.projects gid = .ok projs →
      api.subgroups gid = .error (.httpError m) →
      gatherLoop api (fuel + 1) (gid :: stack) seen acc warns =
        gatherLoop api fuel stack (gid :: seen) acc (gid :: warns))
    ∧ ∀ pRoot : List Project,
        gather_all_projects (c9Api pRoot) 2 1 = some (.ok ⟨[], [1], [1]⟩) := by
  constructor
  · intro api fuel gid stack seen acc warns projs m h1 h2 h3
    simp [gatherLoop, h1, h2, h3]
  · intro pRoot
    rfl

/-- C9, witness: expanding the root of `c9Api [projOf 7]` (projects ok,
subgroups 500) drops the fetched projects and continues. -/
theorem C9_group_all_or_nothing_witness :
    gatherLoop (c9Api [projOf 7]) (1 + 1) (1 :: []) [] [] [] =
      gatherLoop (c9Api [projOf 7]) 1 [] (1 :: []) [] (1 :: []) :=
  C9_group_all_or_nothing.1 (c9Api [projOf 7]) 1 1 [] [] [] [] [projOf 7] "500 Server Error"
    (by decide) rfl rfl

/-- C10.  Base-URL normalization: appending extra trailing slashes to
the constructor argument leaves the stored base URL unchanged, the
stored base ends in exactly one slash, and every request URL built from
it is identical — the two client constructions are observationally
equivalent. -/
theorem C10_base_url_normalization :
    ∀ (s path : String) (n : Nat),
      normBaseUrl (s ++ ⟨List.replicate n '/'⟩) = normBaseUrl s
      ∧ requestUrl (s ++ ⟨List.replicate n '/'⟩) path = requestUrl s path
      ∧ (normBaseUrl s).data.reverse.takeWhile (fun c => c = '/') = ['/'] := by
  intro s path n
  have hb : normBaseUrl (s ++ ⟨List.replicate n '/'⟩) = normBaseUrl s := by
    simp only [normBaseUrl, rstripChar_append_replicate]
  refine ⟨hb, by simp only [requestUrl, hb], ?_⟩
  simp only [normBaseUrl, String.data_append, rstripChar]
  rw [List.reverse_append]
  simp only [List.reverse_reverse, List.reverse_cons, List.reverse_nil, List.nil_append,
    List.singleton_append, List.takeWhile_cons]
  simp [takeWhile_dropWhile_eq_nil]

end Sbg
